import Mathlib

/-!
Verification of `src/TLogs/TlogToCSV.py` (Drone-Digital-Twin--ML-Project).

The script converts MAVLink telemetry logs (tlogs) into one CSV dataset:
per file it builds one dict-row per received message of the types
SYS_STATUS / VFR_HUD / ATTITUDE, forward-fills the resulting DataFrame,
drops rows with NaN, keeps only VFR_HUD rows, tags the file's basename,
and `main` concatenates the per-file frames and writes one CSV.

The embedding below models the message stream a file yields (the decoder,
pymavlink, is an external collaborator: per the design it yields typed
messages or end-of-stream), the per-message row construction, pandas
`fillna(method=ffill)` / `dropna()` / boolean filtering with their exact
column semantics (a column exists only if some row dict contains the key;
`dropna` only inspects existing columns; column order is first-appearance
order of keys; `pd.concat` appends unseen columns of later frames after
the columns of earlier frames), and the batch loop of `main`.
-/

namespace Tlog

/-- The eight tracked value columns of the output schema. -/
inductive Field where
  | voltage
  | current
  | battery_remaining
  | throttle
  | altitude
  | groundspeed
  | roll
  | pitch
deriving DecidableEq, Repr

/-- The three message types requested from `recv_match` (line 22). -/
inductive MsgType where
  | SYS_STATUS
  | VFR_HUD
  | ATTITUDE
deriving DecidableEq, Repr

/-- Payload of a decoded message: exactly the attributes the script reads
for each type (lines 30-42). Values are rationals: the script only copies
and rescales them, so the exact numeric domain is irrelevant to the claims. -/
inductive MsgData where
  | sysStatus (voltage_battery current_battery battery_remaining : ℚ)
  | vfrHud (throttle alt groundspeed : ℚ)
  | attitude (roll pitch : ℚ)
deriving DecidableEq, Repr

/-- A decoded message: `msg._timestamp` plus the typed payload. -/
structure Msg where
  ts : ℚ
  data : MsgData
deriving DecidableEq, Repr

def MsgData.mtype : MsgData → MsgType
  | .sysStatus _ _ _ => .SYS_STATUS
  | .vfrHud _ _ _ => .VFR_HUD
  | .attitude _ _ => .ATTITUDE

/-- One record of tracked values, each possibly missing (NaN / key absent).
This is the value part of one DataFrame row. -/
structure Vals where
  voltage : Option ℚ
  current : Option ℚ
  battery_remaining : Option ℚ
  throttle : Option ℚ
  altitude : Option ℚ
  groundspeed : Option ℚ
  roll : Option ℚ
  pitch : Option ℚ
deriving DecidableEq, Repr

def Vals.get (v : Vals) : Field → Option ℚ
  | .voltage => v.voltage
  | .current => v.current
  | .battery_remaining => v.battery_remaining
  | .throttle => v.throttle
  | .altitude => v.altitude
  | .groundspeed => v.groundspeed
  | .roll => v.roll
  | .pitch => v.pitch

def Vals.empty : Vals := ⟨none, none, none, none, none, none, none, none⟩

/-- Pointwise "first wins": keys present in `a` override `b`.
Used both for the ffill state update and for last-value search. -/
def Vals.orElse (a b : Vals) : Vals :=
  ⟨a.voltage.or b.voltage, a.current.or b.current,
   a.battery_remaining.or b.battery_remaining, a.throttle.or b.throttle,
   a.altitude.or b.altitude, a.groundspeed.or b.groundspeed,
   a.roll.or b.roll, a.pitch.or b.pitch⟩

/-- Field extraction with unit conversion (lines 30-42): SYS_STATUS gives
voltage = voltage_battery/1000, current = current_battery/100,
battery_remaining; VFR_HUD gives throttle, altitude, groundspeed;
ATTITUDE gives roll, pitch. -/
def extract : MsgData → Vals
  | .sysStatus vb cb br =>
      { Vals.empty with
        voltage := some (vb / 1000), current := some (cb / 100),
        battery_remaining := some br }
  | .vfrHud t a g =>
      { Vals.empty with
        throttle := some t, altitude := some a, groundspeed := some g }
  | .attitude r p =>
      { Vals.empty with roll := some r, pitch := some p }

/-- One row dict appended to `data_rows` (lines 26-44): timestamp, type,
and the extracted keys of this message only. -/
structure Row where
  ts : ℚ
  mtype : MsgType
  vals : Vals
deriving DecidableEq, Repr

def buildRow (m : Msg) : Row := ⟨m.ts, m.data.mtype, extract m.data⟩

/-- Model of `df.fillna(method=ffill)` (line 56), column-wise last-value-hold,
threading the running per-column state `st`. -/
def ffillFrom (st : Vals) : List Row → List Row
  | [] => []
  | r :: rs =>
      ⟨r.ts, r.mtype, r.vals.orElse st⟩ :: ffillFrom (r.vals.orElse st) rs

def ffill (rows : List Row) : List Row := ffillFrom Vals.empty rows

/-- The keys each message type contributes, in dict-insertion order
(lines 31-33, 36-38, 41-42). -/
def fieldsOfType : MsgType → List Field
  | .SYS_STATUS => [.voltage, .current, .battery_remaining]
  | .VFR_HUD => [.throttle, .altitude, .groundspeed]
  | .ATTITUDE => [.roll, .pitch]

/-- Tracked-value columns of the per-file DataFrame, in order: pandas
creates columns in first-appearance order of the row dicts' keys
(`pd.DataFrame(data_rows)`, line 51). `timestamp` and `type` always
precede these and are handled separately. -/
def fileColumns (msgs : List Msg) : List Field :=
  msgs.foldl
    (fun acc m =>
      acc ++ (fieldsOfType m.data.mtype).filter (fun f => decide (f ∉ acc)))
    []

/-- One emitted output row: anchor timestamp, the tracked values of this
file's frame (`none` = this column does not exist in this file's frame),
and the `source_file` tag. -/
structure OutRow where
  ts : ℚ
  vals : Vals
  source_file : String
deriving DecidableEq, Repr

def basenameAux : List Char → List Char → List Char
  | [], acc => acc.reverse
  | c :: cs, acc =>
      if c = '/' then basenameAux cs [] else basenameAux cs (c :: acc)

/-- Model of `os.path.basename` on a POSIX path (line 62): the part after the last
slash (the accumulator restarts at every slash). -/
def basename (p : String) : String := ⟨basenameAux p.data []⟩

/-- Per-file result frame: tracked columns in DataFrame order, plus the
emitted rows. In the CSV the columns are `timestamp`, then `cols`, then
`source_file`. -/
structure Frame where
  cols : List Field
  rows : List OutRow
deriving DecidableEq, Repr

/-- What one input file yields. The decoder (pymavlink) is an external
collaborator; modelled from the spec: either opening fails (OpenError,
the `except` of lines 12-16), or it yields a finite message stream,
already filtered to the three requested types. Per the decoder interface
(`next_message -> RawMessage | end-of-stream`) a decode failure partway
through the file surfaces as a premature end-of-stream; `midFileFailure`
records that the file's tail failed to decode after `msgs`. The loop at
lines 20-24 exits on end-of-stream either way, so the script cannot
observe this flag. -/
structure FileStream where
  msgs : List Msg
  midFileFailure : Bool
deriving DecidableEq, Repr

/-- Model of `process_single_tlog` (lines 6-64). `none` models returning `None`
(open failure, line 16, or no data rows, line 48). Otherwise: build one
row per message, ffill, drop every row with a missing value in an
existing column, keep VFR_HUD rows, drop the type column, tag
`os.path.basename(filename)`. -/
def process_single_tlog (filename : String) (stream : Option FileStream) :
    Option Frame :=
  match stream with
  | none => none
  | some s =>
      let rows := s.msgs.map buildRow
      if rows.isEmpty then none
      else
        let cols := fileColumns s.msgs
        let filled := ffill rows
        let kept := filled.filter
          (fun r => cols.all (fun f => (r.vals.get f).isSome))
        let vfr := kept.filter (fun r => decide (r.mtype = MsgType.VFR_HUD))
        some ⟨cols, vfr.map (fun r => ⟨r.ts, r.vals, basename filename⟩)⟩

/-- Column names of the final CSV. -/
inductive ColName where
  | timestamp
  | field (f : Field)
  | source_file
deriving DecidableEq, Repr

/-- Column list of one per-file frame as written: `timestamp` first
(first key of every row dict), the tracked columns, then `source_file`
appended last (line 62); the `type` column was dropped (line 59). -/
def frameCols (fr : Frame) : List ColName :=
  ColName.timestamp :: fr.cols.map ColName.field ++ [ColName.source_file]

/-- Model of `pd.concat` column alignment (line 85): columns of the first frame,
then the unseen columns of each later frame in order of appearance. -/
def masterCols (frames : List Frame) : List ColName :=
  frames.foldl
    (fun acc fr => acc ++ (frameCols fr).filter (fun c => decide (c ∉ acc)))
    []

/-- The combined dataset: CSV column order and all rows. -/
structure Master where
  cols : List ColName
  rows : List OutRow
deriving DecidableEq, Repr

/-- The per-file loop of `main` (lines 76-81): process each file, keep
the frames that are neither `None` nor empty. -/
def surviving (files : List (String × Option FileStream)) : List Frame :=
  files.filterMap
    (fun fs =>
      match process_single_tlog fs.1 fs.2 with
      | none => none
      | some fr => if fr.rows.isEmpty then none else some fr)

/-- Model of `main` (lines 66-97) over an already-enumerated file list (glob is
I/O outside the core): `none` models the "Could not process any files"
branch, where no CSV is written; otherwise the concatenated dataset that
`to_csv` persists. -/
def main_run (files : List (String × Option FileStream)) : Option Master :=
  let fl := surviving files
  if fl.isEmpty then none
  else some ⟨masterCols fl, (fl.map Frame.rows).flatten⟩

/-- The column list the spec's schema fixes. -/
def schemaCols : List ColName :=
  [ColName.timestamp, ColName.field .voltage, ColName.field .current,
   ColName.field .battery_remaining, ColName.field .throttle,
   ColName.field .altitude, ColName.field .groundspeed,
   ColName.field .roll, ColName.field .pitch, ColName.source_file]

/-- Spec-side: the value "current" for field `f` just after the first
`k+1` messages — the value carried by the most recent message at or
before index `k` that set `f` (search backward for the first setter). -/
def lastValue (msgs : List Msg) (k : ℕ) (f : Field) : Option ℚ :=
  (msgs.take (k + 1)).reverse.findSome? (fun m => (extract m.data).get f)

/-! ### Structural lemmas about the pipeline -/

theorem Vals.get_orElse (a b : Vals) (f : Field) :
    (a.orElse b).get f = (a.get f).or (b.get f) := by
  cases f <;> rfl

theorem Vals.get_empty (f : Field) : Vals.empty.get f = none := by
  cases f <;> rfl

theorem length_ffillFrom (st : Vals) (rows : List Row) :
    (ffillFrom st rows).length = rows.length := by
  induction rows generalizing st with
  | nil => rfl
  | cons r rs ih => simp [ffillFrom, ih]

/-- The `j`-th forward-filled row keeps the `j`-th source row's timestamp
and type and carries the fold of all value records up to index `j` over
the initial state. -/
theorem ffillFrom_getElem? (st : Vals) (rows : List Row) (j : ℕ)
    (h : j < rows.length) :
    (ffillFrom st rows)[j]? =
      some ⟨(rows.get ⟨j, h⟩).ts, (rows.get ⟨j, h⟩).mtype,
            (rows.take (j + 1)).foldl (fun s r => r.vals.orElse s) st⟩ := by
  induction rows generalizing st j with
  | nil => simp at h
  | cons r rs ih =>
      cases j with
      | zero => simp [ffillFrom]
      | succ j =>
          have h' : j < rs.length := Nat.lt_of_succ_lt_succ h
          simp [ffillFrom, List.getElem?_cons_succ, ih _ _ h',
            List.take_succ_cons]

/-- Folding "later record wins" states equals searching backward for the
first record that sets the field. -/
theorem foldl_orElse_get (l : List Vals) (st : Vals) (f : Field) :
    (l.foldl (fun s v => v.orElse s) st).get f =
      (l.reverse.findSome? (fun v => v.get f)).or (st.get f) := by
  induction l generalizing st with
  | nil => simp
  | cons v vs ih =>
      have h1 : List.findSome? (fun v => Vals.get v f) [v] = v.get f := by
        cases hv : v.get f <;> simp [List.findSome?_cons, hv]
      rw [List.foldl_cons, ih, List.reverse_cons, List.findSome?_append, h1,
        Vals.get_orElse, Option.or_assoc]

/-- The folded state over the first `j+1` built rows gives, per field, the
most recent value at or before index `j`. -/
theorem take_foldl_lastValue (msgs : List Msg) (j : ℕ) (f : Field) :
    ((((msgs.map buildRow).take (j + 1)).foldl
        (fun s r => r.vals.orElse s) Vals.empty)).get f
      = lastValue msgs j f := by
  rw [← List.map_take, List.foldl_map, lastValue]
  have h1 : (msgs.take (j + 1)).foldl
      (fun s m => (buildRow m).vals.orElse s) Vals.empty
      = ((msgs.take (j + 1)).map (fun m => extract m.data)).foldl
        (fun s v => v.orElse s) Vals.empty := by
    rw [List.foldl_map]; rfl
  rw [h1, foldl_orElse_get, Vals.get_empty, Option.or_none,
    ← List.map_reverse, List.findSome?_map]
  rfl

theorem mem_fileColumns_aux (msgs : List Msg) (acc : List Field) (f : Field) :
    f ∈ msgs.foldl
        (fun acc m =>
          acc ++ (fieldsOfType m.data.mtype).filter (fun f => decide (f ∉ acc)))
        acc ↔
      f ∈ acc ∨ ∃ m ∈ msgs, f ∈ fieldsOfType m.data.mtype := by
  induction msgs generalizing acc with
  | nil => simp
  | cons m ms ih =>
      rw [List.foldl_cons, ih]
      simp only [List.mem_append, List.mem_filter, List.mem_cons]
      constructor
      · rintro (((ha | ⟨hft, _⟩) | ⟨m', hm', hft⟩))
        · exact Or.inl ha
        · exact Or.inr ⟨m, Or.inl rfl, hft⟩
        · exact Or.inr ⟨m', Or.inr hm', hft⟩
      · rintro (ha | ⟨m', (rfl | hm'), hft⟩)
        · exact Or.inl (Or.inl ha)
        · by_cases hacc : f ∈ acc
          · exact Or.inl (Or.inl hacc)
          · exact Or.inl (Or.inr ⟨hft, by simpa using hacc⟩)
        · exact Or.inr ⟨m', hm', hft⟩

theorem isSome_extract_get (d : MsgData) (f : Field) :
    ((extract d).get f).isSome = true ↔ f ∈ fieldsOfType d.mtype := by
  cases d <;> cases f <;>
    simp [extract, Vals.get, fieldsOfType, MsgData.mtype, Vals.empty]

/-- A field is a column of the per-file frame iff some message of the
file sets it. -/
theorem mem_fileColumns (msgs : List Msg) (f : Field) :
    f ∈ fileColumns msgs ↔ ∃ m ∈ msgs, ((extract m.data).get f).isSome := by
  rw [fileColumns, mem_fileColumns_aux]
  simp only [List.not_mem_nil, false_or]
  constructor
  · rintro ⟨m, hm, hft⟩; exact ⟨m, hm, (isSome_extract_get m.data f).mpr hft⟩
  · rintro ⟨m, hm, hft⟩; exact ⟨m, hm, (isSome_extract_get m.data f).mp hft⟩

/-- Destructured form of a successful `process_single_tlog`. -/
theorem process_eq_some (name : String) (s : FileStream) (fr : Frame)
    (h : process_single_tlog name (some s) = some fr) :
    s.msgs ≠ [] ∧
    fr.cols = fileColumns s.msgs ∧
    fr.rows =
      (((ffill (s.msgs.map buildRow)).filter
          (fun r => (fileColumns s.msgs).all (fun f => (r.vals.get f).isSome))).filter
        (fun r => decide (r.mtype = MsgType.VFR_HUD))).map
        (fun r => ⟨r.ts, r.vals, basename name⟩) := by
  rw [process_single_tlog] at h
  by_cases he : (s.msgs.map buildRow).isEmpty
  · rw [if_pos he] at h; exact absurd h (by simp)
  · rw [if_neg he] at h
    refine ⟨?_, ?_, ?_⟩
    · intro hnil
      exact he (by simp [hnil])
    · rw [← Option.some.inj h]
    · rw [← Option.some.inj h]

/-- Workhorse: every row emitted by a successful per-file run corresponds
to an anchor (VFR_HUD) message index `j` of that file; the row carries
that message's timestamp and the file's basename; per tracked field it
carries the most recent value set at or before `j` by the file's own
messages; and every column of the file's frame is populated in it. -/
theorem process_rows_spec (name : String) (s : FileStream) (fr : Frame)
    (h : process_single_tlog name (some s) = some fr)
    (r : OutRow) (hr : r ∈ fr.rows) :
    ∃ j : Fin s.msgs.length,
      (s.msgs.get j).data.mtype = MsgType.VFR_HUD ∧
      r.ts = (s.msgs.get j).ts ∧
      r.source_file = basename name ∧
      (∀ f : Field, r.vals.get f = lastValue s.msgs (j : ℕ) f) ∧
      (∀ f : Field, f ∈ fileColumns s.msgs → (r.vals.get f).isSome) := by
  obtain ⟨-, -, hrows⟩ := process_eq_some name s fr h
  unfold ffill at hrows
  rw [hrows, List.mem_map] at hr
  obtain ⟨r', hr', rfl⟩ := hr
  rw [List.mem_filter] at hr'
  obtain ⟨hr', hvfr⟩ := hr'
  rw [List.mem_filter] at hr'
  obtain ⟨hmem, hall⟩ := hr'
  rw [List.mem_iff_get] at hmem
  obtain ⟨n, hn⟩ := hmem
  have hlenrows : (s.msgs.map buildRow).length = s.msgs.length :=
    List.length_map _ _
  have hnr : (n : ℕ) < (s.msgs.map buildRow).length :=
    lt_of_lt_of_eq n.isLt (length_ffillFrom _ _)
  have hj : (n : ℕ) < s.msgs.length := lt_of_lt_of_eq hnr hlenrows
  have h2 : (ffillFrom Vals.empty (s.msgs.map buildRow))[(n : ℕ)]? = some r' := by
    rw [List.getElem?_eq_getElem n.isLt, ← List.get_eq_getElem, hn]
  have h1 := ffillFrom_getElem? Vals.empty (s.msgs.map buildRow) (n : ℕ) hnr
  have hrow := Option.some.inj (h2.symm.trans h1)
  have hbuild : (s.msgs.map buildRow).get ⟨(n : ℕ), hnr⟩
      = buildRow (s.msgs.get ⟨(n : ℕ), hj⟩) := by
    simp [List.get_eq_getElem]
  refine ⟨⟨(n : ℕ), hj⟩, ?_, ?_, rfl, ?_, ?_⟩
  · have : r'.mtype = MsgType.VFR_HUD := by simpa using hvfr
    rw [hrow, hbuild] at this
    exact this
  · show r'.ts = _
    rw [hrow, hbuild]
    rfl
  · intro f
    show r'.vals.get f = _
    rw [hrow]
    exact take_foldl_lastValue s.msgs (n : ℕ) f
  · intro f hf
    show (r'.vals.get f).isSome
    rw [List.all_eq_true] at hall
    simpa using hall f hf

/-- Every row of a successful per-file run is tagged with the basename of
the file it was built from. -/
theorem process_source_file (name : String) (st : Option FileStream)
    (fr : Frame) (hp : process_single_tlog name st = some fr)
    (r : OutRow) (hr : r ∈ fr.rows) : r.source_file = basename name := by
  cases st with
  | none => exact absurd hp (by simp [process_single_tlog])
  | some s =>
      obtain ⟨-, -, hrows⟩ := process_eq_some name s fr hp
      rw [hrows, List.mem_map] at hr
      obtain ⟨r', -, rfl⟩ := hr
      rfl

/-- Forward-filling changes neither timestamps nor types, so the
VFR_HUD-filtered timestamp sequence is unchanged by it. -/
theorem ffillFrom_filter_vfr_map_ts (st : Vals) (rows : List Row) :
    (((ffillFrom st rows).filter
        (fun r => decide (r.mtype = MsgType.VFR_HUD))).map Row.ts)
      = ((rows.filter (fun r => decide (r.mtype = MsgType.VFR_HUD))).map Row.ts) := by
  induction rows generalizing st with
  | nil => rfl
  | cons r rs ih =>
      by_cases hm : r.mtype = MsgType.VFR_HUD <;>
        simp [ffillFrom, List.filter_cons, hm, ih]

/-- Row building keeps timestamps and types, so filtering built rows to
VFR_HUD and reading timestamps equals doing it on the messages. -/
theorem map_buildRow_filter_vfr_ts (msgs : List Msg) :
    (((msgs.map buildRow).filter
        (fun r => decide (r.mtype = MsgType.VFR_HUD))).map Row.ts)
      = ((msgs.filter
          (fun m => decide (m.data.mtype = MsgType.VFR_HUD))).map Msg.ts) := by
  induction msgs with
  | nil => rfl
  | cons m ms ih =>
      by_cases hm : m.data.mtype = MsgType.VFR_HUD <;>
        simp [buildRow, List.filter_cons, hm, ih]

/-- Destructured form of a successful `main_run`. -/
theorem main_run_eq_some (files : List (String × Option FileStream))
    (master : Master) (h : main_run files = some master) :
    surviving files ≠ [] ∧
    master.cols = masterCols (surviving files) ∧
    master.rows = ((surviving files).map Frame.rows).flatten := by
  by_cases he : (surviving files).isEmpty
  · rw [main_run] at h
    rw [if_pos he] at h
    exact absurd h (by simp)
  · rw [main_run] at h
    rw [if_neg he] at h
    refine ⟨by simpa [List.isEmpty_eq_false] using he, ?_, ?_⟩
    · rw [← Option.some.inj h]
    · rw [← Option.some.inj h]

theorem surviving_append (l1 l2 : List (String × Option FileStream)) :
    surviving (l1 ++ l2) = surviving l1 ++ surviving l2 :=
  List.filterMap_append _ _ _

theorem surviving_cons_none (name : String)
    (files : List (String × Option FileStream)) :
    surviving ((name, none) :: files) = surviving files := by
  rw [surviving, List.filterMap_cons]
  rfl

theorem surviving_cons_some (e : String × Option FileStream)
    (files : List (String × Option FileStream)) (fr : Frame)
    (hp : process_single_tlog e.1 e.2 = some fr) (hne : fr.rows ≠ []) :
    surviving (e :: files) = fr :: surviving files := by
  rw [surviving, List.filterMap_cons, hp]
  have : fr.rows.isEmpty = false := List.isEmpty_eq_false.mpr hne
  simp only [this]
  rfl

theorem of_mem_surviving (files : List (String × Option FileStream))
    (fr : Frame) (h : fr ∈ surviving files) :
    ∃ e ∈ files, ∃ s : FileStream, e.2 = some s ∧
      process_single_tlog e.1 (some s) = some fr ∧ fr.rows ≠ [] := by
  rw [surviving, List.mem_filterMap] at h
  obtain ⟨e, he, hfe⟩ := h
  cases hs : e.2 with
  | none =>
      rw [hs] at hfe
      simp [process_single_tlog] at hfe
  | some s =>
      rw [hs] at hfe
      cases hp : process_single_tlog e.1 (some s) with
      | none => rw [hp] at hfe; exact absurd hfe (by simp)
      | some fr' =>
          rw [hp] at hfe
          have hfe' : (if fr'.rows.isEmpty then none else some fr')
              = some fr := hfe
          by_cases hre : fr'.rows.isEmpty
          · rw [if_pos hre] at hfe'
            exact absurd hfe' (by simp)
          · rw [if_neg hre] at hfe'
            obtain rfl := Option.some.inj hfe'
            exact ⟨e, he, s, hs, hp,
              by simpa [List.isEmpty_eq_false] using hre⟩

/-- Once the accumulated column list already contains every column of
every remaining frame, concatenation adds nothing. -/
theorem masterCols_foldl_absorb (frames : List Frame) (acc : List ColName)
    (hall : ∀ fr ∈ frames, ∀ c ∈ frameCols fr, c ∈ acc) :
    frames.foldl
        (fun acc fr => acc ++ (frameCols fr).filter (fun c => decide (c ∉ acc)))
        acc = acc := by
  induction frames generalizing acc with
  | nil => rfl
  | cons fr frames ih =>
      rw [List.foldl_cons]
      have hnil : (frameCols fr).filter (fun c => decide (c ∉ acc)) = [] :=
        List.filter_eq_nil_iff.mpr
          (fun c hc => by simpa using hall fr (by simp) c hc)
      rw [hnil, List.append_nil]
      exact ih acc (fun fr' hfr' => hall fr' (by simp [hfr']))

/-- Every possible column name occurs in the schema column list. -/
theorem mem_schemaCols (c : ColName) : c ∈ schemaCols := by
  cases c with
  | timestamp => decide
  | source_file => decide
  | field f => cases f <;> decide

/-! ### Concrete runs used by witnesses and counterexamples -/

/-- A log with one ATTITUDE message and one later VFR_HUD anchor;
SYS_STATUS never occurs. -/
def wMsgs : List Msg := [⟨1, .attitude 7 9⟩, ⟨3, .vfrHud 50 100 5⟩]

def wVals : Vals :=
  ⟨none, none, none, some 50, some 100, some 5, some 7, some 9⟩

def wCols : List Field :=
  [.roll, .pitch, .throttle, .altitude, .groundspeed]

def wFrame : Frame := ⟨wCols, [⟨3, wVals, "w.tlog"⟩]⟩

/-- The columns the batch over `wMsgs`-style logs actually persists. -/
def wMasterCols : List ColName :=
  [ColName.timestamp, ColName.field .roll, ColName.field .pitch,
   ColName.field .throttle, ColName.field .altitude,
   ColName.field .groundspeed, ColName.source_file]

/-- A log whose message types first arrive as SYS_STATUS, VFR_HUD,
ATTITUDE, with a final anchor after all three were seen. -/
def w5Msgs : List Msg :=
  [⟨1, .sysStatus 12400 500 90⟩, ⟨2, .vfrHud 50 100 5⟩,
   ⟨3, .attitude 7 9⟩, ⟨4, .vfrHud 60 110 6⟩]

def w5Vals : Vals :=
  ⟨some ((12400 : ℚ) / 1000), some ((500 : ℚ) / 100), some 90,
   some 60, some 110, some 6, some 7, some 9⟩

def w5Master : Master := ⟨schemaCols, [⟨4, w5Vals, "w5.tlog"⟩]⟩

/-- A log with a single VFR_HUD message and nothing else. -/
def bMsgs : List Msg := [⟨5, .vfrHud 20 30 4⟩]

def bVals : Vals :=
  ⟨none, none, none, some 20, some 30, some 4, none, none⟩

def frA9 : Frame := ⟨wCols, [⟨3, wVals, "a.tlog"⟩]⟩

def frB9 : Frame :=
  ⟨[.throttle, .altitude, .groundspeed], [⟨5, bVals, "b.tlog"⟩]⟩

def w9Master : Master :=
  ⟨wMasterCols, [⟨3, wVals, "a.tlog"⟩, ⟨5, bVals, "b.tlog"⟩]⟩

/-! ### The claims -/

/-- Claim C1 (confirmed): forward-fill correctness. Every row emitted for a
log corresponds to an anchor (VFR_HUD) message `j` of that same log and
carries, for each tracked field, the value of the most recent message at
or before `j` that set that field: `lastValue` searches backward from the
anchor for the first message whose field map contains the field, which is
exactly the rule that a message's field map overwrites the keys it
contains and leaves all other tracked fields unchanged. -/
theorem C1_forward_fill (name : String) (s : FileStream) (fr : Frame)
    (h : process_single_tlog name (some s) = some fr)
    (r : OutRow) (hr : r ∈ fr.rows) :
    ∃ j : Fin s.msgs.length,
      (s.msgs.get j).data.mtype = MsgType.VFR_HUD ∧
      r.ts = (s.msgs.get j).ts ∧
      ∀ f : Field, r.vals.get f = lastValue s.msgs (j : ℕ) f := by
  obtain ⟨j, h1, h2, -, h4, -⟩ := process_rows_spec name s fr h r hr
  exact ⟨j, h1, h2, h4⟩

/-- Witness for C1 at the concrete log `wMsgs`. -/
theorem C1_forward_fill_witness :
    ∃ j : Fin (FileStream.mk wMsgs false).msgs.length,
      ((FileStream.mk wMsgs false).msgs.get j).data.mtype = MsgType.VFR_HUD ∧
      (OutRow.mk 3 wVals "w.tlog").ts
        = ((FileStream.mk wMsgs false).msgs.get j).ts ∧
      ∀ f : Field, (OutRow.mk 3 wVals "w.tlog").vals.get f
        = lastValue (FileStream.mk wMsgs false).msgs (j : ℕ) f :=
  C1_forward_fill "w.tlog" ⟨wMsgs, false⟩ wFrame rfl
    ⟨3, wVals, "w.tlog"⟩ (List.mem_singleton.mpr rfl)

def c2Row : OutRow := ⟨3, wVals, "c2.tlog"⟩

/-- Claim C2 counterexample: in the log `wMsgs` the required fields voltage,
current and battery_remaining are never set (no SYS_STATUS occurs), yet
the anchor row is still emitted — with those columns simply absent from
that file's frame — rather than dropped: `dropna` cannot drop on a column
that never came into existence. -/
theorem C2_counterexample :
    process_single_tlog "c2.tlog" (some ⟨wMsgs, false⟩)
      = some ⟨wCols, [c2Row]⟩ ∧
    c2Row.vals.get Field.voltage = none :=
  ⟨rfl, rfl⟩

/-- Claim C2 (amended): completeness gating holds relative to the fields
that occur in the file. No row is emitted at an anchor until every
tracked field that is set by at least one message somewhere in the file
has been observed at or before that anchor; a tracked field never set
anywhere in the file does not gate emission — rows are emitted anyway and
the field is simply missing (its column is absent, null after
concatenation with frames that have it). -/
theorem C2_amended_gating (name : String) (s : FileStream) (fr : Frame)
    (h : process_single_tlog name (some s) = some fr)
    (r : OutRow) (hr : r ∈ fr.rows) :
    ∃ j : Fin s.msgs.length,
      (s.msgs.get j).data.mtype = MsgType.VFR_HUD ∧
      r.ts = (s.msgs.get j).ts ∧
      ∀ f : Field,
        ((∃ m ∈ s.msgs, ((extract m.data).get f).isSome) →
          (lastValue s.msgs (j : ℕ) f).isSome) ∧
        ((∀ m ∈ s.msgs, (extract m.data).get f = none) →
          r.vals.get f = none) := by
  obtain ⟨j, h1, h2, -, h4, h5⟩ := process_rows_spec name s fr h r hr
  refine ⟨j, h1, h2, fun f => ⟨fun hex => ?_, fun hnone => ?_⟩⟩
  · have hcol : f ∈ fileColumns s.msgs := (mem_fileColumns s.msgs f).mpr hex
    have := h5 f hcol
    rwa [h4 f] at this
  · rw [h4 f, lastValue, List.findSome?_eq_none_iff]
    intro m hm
    exact hnone m (List.take_subset _ _ (List.mem_reverse.mp hm))

/-- Witness for the amended C2 at the concrete log `wMsgs`. -/
theorem C2_amended_gating_witness :
    ∃ j : Fin (FileStream.mk wMsgs false).msgs.length,
      ((FileStream.mk wMsgs false).msgs.get j).data.mtype = MsgType.VFR_HUD ∧
      c2Row.ts = ((FileStream.mk wMsgs false).msgs.get j).ts ∧
      ∀ f : Field,
        ((∃ m ∈ (FileStream.mk wMsgs false).msgs,
            ((extract m.data).get f).isSome) →
          (lastValue (FileStream.mk wMsgs false).msgs (j : ℕ) f).isSome) ∧
        ((∀ m ∈ (FileStream.mk wMsgs false).msgs,
            (extract m.data).get f = none) →
          c2Row.vals.get f = none) :=
  C2_amended_gating "c2.tlog" ⟨wMsgs, false⟩ ⟨wCols, [c2Row]⟩ rfl c2Row
    (List.mem_singleton.mpr rfl)

/-- Claim C3 (confirmed): file isolation. Every row of the combined dataset
is fully determined by exactly one input file: its `source_file` is that
file's basename, its timestamp is one of that file's anchor messages, and
every tracked value equals the most recent value set by that same file's
own messages at or before the anchor — never a value from another file
(an absent field stays `none`, it is not filled from elsewhere). In
addition every field set anywhere in that file was set at or before the
anchor, so an anchor preceding all of its own file's setters of an
in-file field yields no row (dropped), not a row filled from another
file's state. -/
theorem C3_file_isolation (files : List (String × Option FileStream))
    (master : Master) (h : main_run files = some master)
    (r : OutRow) (hr : r ∈ master.rows) :
    ∃ e ∈ files, ∃ s : FileStream, e.2 = some s ∧
      r.source_file = basename e.1 ∧
      ∃ j : Fin s.msgs.length,
        (s.msgs.get j).data.mtype = MsgType.VFR_HUD ∧
        r.ts = (s.msgs.get j).ts ∧
        (∀ f : Field, r.vals.get f = lastValue s.msgs (j : ℕ) f) ∧
        (∀ f : Field, f ∈ fileColumns s.msgs →
          (lastValue s.msgs (j : ℕ) f).isSome) := by
  obtain ⟨-, -, hrows⟩ := main_run_eq_some files master h
  rw [hrows, List.mem_flatten] at hr
  obtain ⟨l, hl, hrl⟩ := hr
  rw [List.mem_map] at hl
  obtain ⟨fr, hfr, rfl⟩ := hl
  obtain ⟨e, he, s, hs, hp, -⟩ := of_mem_surviving files fr hfr
  obtain ⟨j, h1, h2, h3, h4, h5⟩ := process_rows_spec e.1 s fr hp r hrl
  exact ⟨e, he, s, hs, h3, j, h1, h2, h4,
    fun f hf => by rw [← h4 f]; exact h5 f hf⟩

/-- Witness for C3 at a concrete one-file batch. -/
theorem C3_file_isolation_witness :
    ∃ e ∈ [("a.tlog", some (FileStream.mk wMsgs false))],
      ∃ s : FileStream, e.2 = some s ∧
      (OutRow.mk 3 wVals "a.tlog").source_file = basename e.1 ∧
      ∃ j : Fin s.msgs.length,
        (s.msgs.get j).data.mtype = MsgType.VFR_HUD ∧
        (OutRow.mk 3 wVals "a.tlog").ts = (s.msgs.get j).ts ∧
        (∀ f : Field, (OutRow.mk 3 wVals "a.tlog").vals.get f
          = lastValue s.msgs (j : ℕ) f) ∧
        (∀ f : Field, f ∈ fileColumns s.msgs →
          (lastValue s.msgs (j : ℕ) f).isSome) :=
  C3_file_isolation [("a.tlog", some ⟨wMsgs, false⟩)]
    ⟨wMasterCols, [⟨3, wVals, "a.tlog"⟩]⟩ rfl
    ⟨3, wVals, "a.tlog"⟩ (List.mem_singleton.mpr rfl)



/-- Claim C4 (confirmed): anchor-based emission cadence and order. The
per-file output timestamp sequence is a subsequence of the file's
VFR_HUD-message timestamp sequence — so rows are produced only at anchor
occurrences, at most one row per occurrence, in anchor arrival order —
and every emitted row carries the timestamp of an anchor message of the
file. -/
theorem C4_anchor_cadence (name : String) (s : FileStream) (fr : Frame)
    (h : process_single_tlog name (some s) = some fr) :
    (fr.rows.map OutRow.ts).Sublist
        ((s.msgs.filter
          (fun m => decide (m.data.mtype = MsgType.VFR_HUD))).map Msg.ts) ∧
    ∀ r ∈ fr.rows, ∃ j : Fin s.msgs.length,
      (s.msgs.get j).data.mtype = MsgType.VFR_HUD ∧
      r.ts = (s.msgs.get j).ts := by
  constructor
  · obtain ⟨-, -, hrows⟩ := process_eq_some name s fr h
    rw [hrows]
    have hmm : ∀ (l : List Row),
        ((l.map (fun r => OutRow.mk r.ts r.vals (basename name))).map
          OutRow.ts) = l.map Row.ts := by
      intro l; rw [List.map_map]; rfl
    rw [hmm]
    have hsub : List.Sublist
        (((ffill (s.msgs.map buildRow)).filter
          (fun r =>
            (fileColumns s.msgs).all (fun f => (r.vals.get f).isSome))).filter
          (fun r => decide (r.mtype = MsgType.VFR_HUD)))
        ((ffill (s.msgs.map buildRow)).filter
          (fun r => decide (r.mtype = MsgType.VFR_HUD))) :=
      List.Sublist.filter _ (List.filter_sublist _)
    have hts := hsub.map Row.ts
    rw [ffill, ffillFrom_filter_vfr_map_ts, map_buildRow_filter_vfr_ts] at hts
    rw [ffill]
    exact hts
  · intro r hr
    obtain ⟨j, h1, h2, -, -, -⟩ := process_rows_spec name s fr h r hr
    exact ⟨j, h1, h2⟩

/-- Witness for C4 at the concrete log `wMsgs`. -/
theorem C4_anchor_cadence_witness :
    ((wFrame.rows.map OutRow.ts)).Sublist
        (((FileStream.mk wMsgs false).msgs.filter
          (fun m => decide (m.data.mtype = MsgType.VFR_HUD))).map Msg.ts) ∧
    ∀ r ∈ wFrame.rows, ∃ j : Fin (FileStream.mk wMsgs false).msgs.length,
      ((FileStream.mk wMsgs false).msgs.get j).data.mtype
        = MsgType.VFR_HUD ∧
      r.ts = ((FileStream.mk wMsgs false).msgs.get j).ts :=
  C4_anchor_cadence "w.tlog" ⟨wMsgs, false⟩ wFrame rfl

/-- Claim C5 counterexample: a batch whose only log has an ATTITUDE message
first and no SYS_STATUS at all is persisted with columns `timestamp,
roll, pitch, throttle, altitude, groundspeed, source_file`: neither the
documented set (voltage, current, battery_remaining are missing) nor the
documented order (roll and pitch precede throttle). The artifact's
columns depend on which message types occur and on first-arrival order. -/
theorem C5_counterexample :
    (main_run [("c5.tlog", some ⟨wMsgs, false⟩)]).map Master.cols
      = some wMasterCols ∧ wMasterCols ≠ schemaCols :=
  ⟨rfl, by decide⟩

/-- The tracked columns in the order documented by the schema. -/
def canonicalFields : List Field :=
  [.voltage, .current, .battery_remaining, .throttle, .altitude,
   .groundspeed, .roll, .pitch]

/-- Claim C5 (amended): the artifact's columns are `timestamp`, then the
tracked fields in first-appearance order of their message types (files in
processing order, a later file's unseen columns appended at the end),
then `source_file` after the first file's fields. Whenever the first
surviving file's tracked columns come out in the canonical order —
its message types first arrive as SYS_STATUS, VFR_HUD, ATTITUDE, all
three occurring — the artifact has exactly the documented schema columns
in the documented order. -/
theorem C5_amended_schema (files : List (String × Option FileStream))
    (master : Master) (h : main_run files = some master)
    (h1 : ((surviving files).map Frame.cols).head? = some canonicalFields) :
    master.cols = schemaCols := by
  obtain ⟨hne, hcols, -⟩ := main_run_eq_some files master h
  cases hsv : surviving files with
  | nil => exact absurd hsv hne
  | cons fr0 rest =>
      rw [hsv] at h1 hcols
      have h0 : fr0.cols = canonicalFields := by simpa using h1
      have hstep : (([] : List ColName)
          ++ (frameCols fr0).filter
            (fun c => decide (c ∉ ([] : List ColName)))) = schemaCols := by
        rw [frameCols, h0]
        decide
      rw [hcols, masterCols, List.foldl_cons, hstep]
      exact masterCols_foldl_absorb rest schemaCols
        (fun fr _ c _ => mem_schemaCols c)

/-- Witness for the amended C5 at the concrete log `w5Msgs`. -/
theorem C5_amended_schema_witness : w5Master.cols = schemaCols :=
  C5_amended_schema [("w5.tlog", some ⟨w5Msgs, false⟩)] w5Master rfl rfl

/-- Claim C6 counterexample: a file whose decoding fails partway through —
after the two messages of `wMsgs` the rest of the file cannot be decoded,
which the decoder surfaces as a premature end-of-stream — still
contributes the row accumulated before the failure to the batch output.
The partial data is emitted, not discarded, contradicting "the file
contributes no rows". -/
theorem C6_counterexample :
    main_run [("c6.tlog", some ⟨wMsgs, true⟩)]
      = some ⟨wMasterCols, [⟨3, wVals, "c6.tlog"⟩]⟩ := rfl

/-- Claim C6 (amended): a mid-file decode failure is indeed never fatal to
the batch — the stream simply ends early and the batch behaves exactly as
if the file had been a complete, shorter log — but the rows accumulated
up to the failure are processed and emitted for that file, not
discarded. -/
theorem C6_amended_partial (pre post : List (String × Option FileStream))
    (name : String) (msgs : List Msg) (b : Bool) :
    process_single_tlog name (some ⟨msgs, b⟩)
      = process_single_tlog name (some ⟨msgs, false⟩) ∧
    main_run (pre ++ (name, some ⟨msgs, b⟩) :: post)
      = main_run (pre ++ (name, some ⟨msgs, false⟩) :: post) := by
  refine ⟨rfl, ?_⟩
  have hsv : surviving (pre ++ (name, some ⟨msgs, b⟩) :: post)
      = surviving (pre ++ (name, some ⟨msgs, false⟩) :: post) := by
    rw [surviving_append, surviving_append]
    have hc : surviving ((name, some ⟨msgs, b⟩) :: post)
        = surviving ((name, some ⟨msgs, false⟩) :: post) := rfl
    rw [hc]
  rw [main_run, main_run, hsv]

/-- Claim C7 (confirmed): partial-failure tolerance at file granularity. A
file that cannot be opened (OpenError, the `except` branch) contributes
nothing, and the batch result is exactly the result of the batch without
that file: every other file, before or after the corrupt one, is still
processed identically. -/
theorem C7_open_error_skipped (pre post : List (String × Option FileStream))
    (name : String) :
    main_run (pre ++ (name, none) :: post) = main_run (pre ++ post) := by
  have hsv : surviving (pre ++ (name, none) :: post)
      = surviving (pre ++ post) := by
    rw [surviving_append, surviving_append, surviving_cons_none]
  rw [main_run, main_run, hsv]

/-- Claim C8 (confirmed): aggregate-empty outcome. The batch writes no
output artifact (`main_run` is `none`, the "Could not process any files"
branch) precisely when every file either fails to open or yields zero
usable rows; and an empty log yields `None` ("no usable data") for that
file rather than an error. -/
theorem C8_aggregate_empty (files : List (String × Option FileStream)) :
    (main_run files = none ↔
      ∀ e ∈ files, ∀ fr : Frame,
        process_single_tlog e.1 e.2 = some fr → fr.rows = []) ∧
    ∀ (name : String) (b : Bool),
      process_single_tlog name (some ⟨[], b⟩) = none := by
  constructor
  · have hiff : main_run files = none ↔ surviving files = [] := by
      rw [main_run]
      by_cases he : (surviving files).isEmpty
      · rw [if_pos he]
        simp [List.isEmpty_iff.mp he]
      · rw [if_neg he]
        have hne : surviving files ≠ [] := by
          simpa [List.isEmpty_iff] using he
        simp [hne]
    rw [hiff, surviving, List.filterMap_eq_nil_iff]
    constructor
    · intro hall e he fr hfr
      have h1 : (match process_single_tlog e.1 e.2 with
          | none => none
          | some fr => if fr.rows.isEmpty then none else some fr)
          = (none : Option Frame) := hall e he
      rw [hfr] at h1
      have h2 : (if fr.rows.isEmpty then none else some fr)
          = (none : Option Frame) := h1
      by_cases hre : fr.rows.isEmpty
      · exact List.isEmpty_iff.mp hre
      · rw [if_neg hre] at h2
        exact absurd h2 (by simp)
    · intro hall e he
      show (match process_single_tlog e.1 e.2 with
        | none => none
        | some fr => if fr.rows.isEmpty then none else some fr)
        = (none : Option Frame)
      cases hp : process_single_tlog e.1 e.2 with
      | none => rfl
      | some fr =>
          have hre : fr.rows = [] := hall e he fr hp
          show (if fr.rows.isEmpty then none else (some fr : Option Frame))
            = none
          rw [if_pos (List.isEmpty_iff.mpr hre)]
  · intro name b
    rfl

/-- Witness for C8: a batch of one unopenable file and one empty log
produces no output artifact. -/
theorem C8_aggregate_empty_witness :
    main_run [("x.tlog", none), ("e.tlog", some ⟨[], false⟩)] = none := by
  refine (C8_aggregate_empty _).1.mpr ?_
  intro e he fr hfr
  fin_cases he <;> exact absurd hfr (by simp [process_single_tlog])

/-- Claim C9 (confirmed): concatenation order. In the combined dataset, the
rows of an earlier-processed file form a contiguous block that precedes
the rows of any later-processed file, with per-file internal order
preserved, and each block's rows carry the basename of their own file. -/
theorem C9_concat_order (pre mid post : List (String × Option FileStream))
    (na nb : String) (sa sb : Option FileStream) (frA frB : Frame)
    (master : Master)
    (hA : process_single_tlog na sa = some frA) (hAne : frA.rows ≠ [])
    (hB : process_single_tlog nb sb = some frB) (hBne : frB.rows ≠ [])
    (h : main_run (pre ++ (na, sa) :: mid ++ (nb, sb) :: post)
      = some master) :
    (∃ l1 l2 l3, master.rows
        = l1 ++ frA.rows ++ l2 ++ frB.rows ++ l3) ∧
    (∀ r ∈ frA.rows, r.source_file = basename na) ∧
    (∀ r ∈ frB.rows, r.source_file = basename nb) := by
  obtain ⟨-, -, hrows⟩ := main_run_eq_some _ _ h
  have hsv : surviving (pre ++ (na, sa) :: mid ++ (nb, sb) :: post)
      = surviving pre
        ++ ((frA :: surviving mid) ++ (frB :: surviving post)) := by
    rw [surviving_append, surviving_append,
      surviving_cons_some (na, sa) _ frA hA hAne,
      surviving_cons_some (nb, sb) _ frB hB hBne]
    simp
  rw [hsv] at hrows
  refine ⟨⟨((surviving pre).map Frame.rows).flatten,
      ((surviving mid).map Frame.rows).flatten,
      ((surviving post).map Frame.rows).flatten, ?_⟩,
    fun r hr => process_source_file na sa frA hA r hr,
    fun r hr => process_source_file nb sb frB hB r hr⟩
  rw [hrows]
  simp [List.map_append, List.flatten_append, List.flatten_cons,
    List.map_cons, List.append_assoc]

/-- Witness for C9 at a concrete two-file batch. -/
theorem C9_concat_order_witness :
    (∃ l1 l2 l3, w9Master.rows
        = l1 ++ frA9.rows ++ l2 ++ frB9.rows ++ l3) ∧
    (∀ r ∈ frA9.rows, r.source_file = basename "a.tlog") ∧
    (∀ r ∈ frB9.rows, r.source_file = basename "b.tlog") :=
  C9_concat_order [] [] [] "a.tlog" "b.tlog" (some ⟨wMsgs, false⟩)
    (some ⟨bMsgs, false⟩) frA9 frB9 w9Master rfl (List.cons_ne_nil _ _)
    rfl (List.cons_ne_nil _ _) rfl

/-- Claim C10 (confirmed): every emitted row's `source_file` equals the
final path component (basename) of the input path, not the full path;
consequently rows produced from two distinct input paths that share the
same final component carry identical `source_file` values and are
indistinguishable by provenance. -/
theorem C10_source_file_basename (name name2 : String)
    (st st2 : Option FileStream) (fr fr2 : Frame)
    (h : process_single_tlog name st = some fr)
    (h2 : process_single_tlog name2 st2 = some fr2)
    (r r2 : OutRow) (hr : r ∈ fr.rows) (hr2 : r2 ∈ fr2.rows) :
    r.source_file = basename name ∧
    (basename name = basename name2 → r.source_file = r2.source_file) := by
  have e1 := process_source_file name st fr h r hr
  have e2 := process_source_file name2 st2 fr2 h2 r2 hr2
  exact ⟨e1, fun hb => by rw [e1, hb, ← e2]⟩

/-- Witness for C10: the two distinct paths `d1/a.tlog` and `d2/a.tlog`
both tag their rows `a.tlog`. -/
theorem C10_source_file_basename_witness :
    (OutRow.mk 3 wVals "a.tlog").source_file = basename "d1/a.tlog" ∧
    (basename "d1/a.tlog" = basename "d2/a.tlog" →
      (OutRow.mk 3 wVals "a.tlog").source_file
        = (OutRow.mk 3 wVals "a.tlog").source_file) :=
  C10_source_file_basename "d1/a.tlog" "d2/a.tlog" (some ⟨wMsgs, false⟩)
    (some ⟨wMsgs, false⟩) frA9 frA9 rfl rfl ⟨3, wVals, "a.tlog"⟩
    ⟨3, wVals, "a.tlog"⟩ (List.mem_singleton.mpr rfl)
    (List.mem_singleton.mpr rfl)

end Tlog
